import Mathlib

/-!
Verification of the BotsDemo load-generation harness.

Shallow embedding of the two source variants:
  * `basic_bot/basic_bot.py`   — thread-pool HTTP variant
  * `browser_impersonator/browser_impersonator_bot.py` — cooperative-task browser variant

Time is modelled by the rationals.  `time.sleep(d)` / `asyncio.sleep(d)`
advances the clock by exactly `d` (the spec's "suspend for exactly that
duration"); fallible Python operations are modelled with `Except`.
-/

/-- Embeds class `RateLimiter` (identical in both source files):
`rate_limit` and `time_window` as passed to `__init__`, `requests` the deque
of recorded timestamps, oldest first. -/
structure RateLimiter where
  rate_limit : ℤ
  time_window : ℚ
  requests : List ℚ
deriving DecidableEq

/-- Embeds `RateLimiter.__init__(rate_limit, time_window)`; the source's
default for `time_window` is `1`, and both call sites use that default.
No validation is performed (the constructor only stores the fields). -/
def RateLimiter.make (rate_limit : ℤ) (time_window : ℚ) : RateLimiter :=
  ⟨rate_limit, time_window, []⟩

/-- Embeds the pruning loop
`while self.requests and self.requests[0] <= now - self.time_window: popleft()`:
drop from the front every timestamp `≤ cutoff`. -/
def pruneRequests (requests : List ℚ) (cutoff : ℚ) : List ℚ :=
  requests.dropWhile (fun t => decide (t ≤ cutoff))

/-- Embeds `RateLimiter.wait(self)` called at instant `now`
(`now = time.time()`), returning the updated limiter and the instant at
which the call returns.  An empty deque reached with
`len(self.requests) >= self.rate_limit` models the `IndexError` that
`self.requests[0]` raises (possible only when `rate_limit ≤ 0`).
Note the source appends the pre-sleep `now`, not the post-wake instant. -/
def RateLimiter.wait (rl : RateLimiter) (now : ℚ) : Except Unit (RateLimiter × ℚ) :=
  let pruned := pruneRequests rl.requests (now - rl.time_window)
  if (pruned.length : ℤ) ≥ rl.rate_limit then
    match pruned with
    | [] => .error ()
    | t0 :: _ =>
      let sleep_time := t0 - (now - rl.time_window)
      let ret := if sleep_time > 0 then now + sleep_time else now
      .ok (⟨rl.rate_limit, rl.time_window, pruned ++ [now]⟩, ret)
  else
    .ok (⟨rl.rate_limit, rl.time_window, pruned ++ [now]⟩, now)

/-- A sequence of `wait()` calls on one limiter, as issued serially by
`run_basic_bot`'s submission loop: `delays` lists, for each call, the extra
time elapsed between the previous call's return (initially the start
instant `t`) and this call.  Returns the final limiter state and the final
return instant. -/
def waitRun (rl : RateLimiter) (t : ℚ) : List ℚ → Except Unit (RateLimiter × ℚ)
  | [] => .ok (rl, t)
  | d :: ds =>
    match rl.wait (t + d) with
    | .error e => .error e
    | .ok (rl', ret) => waitRun rl' ret ds

/-- Result of one `make_request(session, url)` call as observed through
`future.result()` in `run_basic_bot`: either the returned
`(resp.status_code, elapsed)` pair, or an exception (carrying its message,
`str(e)` in the source's log line). -/
inductive ReqResult
  | ok (status : ℤ) (elapsed : ℚ)
  | exn (reason : String)
deriving DecidableEq

/-- An element of `run_basic_bot`'s `results` list: the success path appends
the 2-tuple `(status, elapsed)`, the exception path appends the constant
3-tuple `(0, 0, 0)`. -/
inductive ResultEntry
  | pair (status : ℤ) (elapsed : ℚ)
  | triple
deriving DecidableEq

/-- `r[0]` of a results entry (the status slot; `0` for the failure
3-tuple `(0, 0, 0)`). -/
def statusOf : ResultEntry → ℤ
  | .pair s _ => s
  | .triple => 0

/-- `r[1]` of a results entry (the elapsed slot; `0` for the failure
3-tuple `(0, 0, 0)`). -/
def elapsedOf : ResultEntry → ℚ
  | .pair _ e => e
  | .triple => 0

/-- How the collection loop `for future in as_completed(futures)` turns one
request result into the entry appended to `results`: the `try` branch
appends `(status, elapsed)`, the `except` branch appends `(0, 0, 0)`
(logging, not recording, the reason). -/
def entryOfResult : ReqResult → ResultEntry
  | .ok s e => .pair s e
  | .exn _ => .triple

/-- Python's `min` over a list, as used on the nonempty `times`
(`min(times)`); the `[]` value is irrelevant because the source guards the
call with `if times:`. -/
def pyMin : List ℚ → ℚ
  | [] => 0
  | x :: xs => xs.foldl min x

/-- Python's `max` over a list, as used on the nonempty `times`. -/
def pyMax : List ℚ → ℚ
  | [] => 0
  | x :: xs => xs.foldl max x

/-- The summary block of `run_basic_bot`: total is the parameter `n`
(logged as `Total requests: {n}`), success/failure counts are the lengths
of `[r for r in results if r[0] == 200]` and `[... != 200]`, and the
timing stats `(min, max, avg)` are computed from
`times = [r[1] for r in results if r[0] == 200]` only when `times` is
nonempty. -/
structure BasicSummary where
  total : ℤ
  successCount : ℕ
  failureCount : ℕ
  timingStats : Option (ℚ × ℚ × ℚ)
deriving DecidableEq

/-- Embeds lines 87–103 of `basic_bot.py` (the summary computation). -/
def summarizeBasic (n : ℤ) (results : List ResultEntry) : BasicSummary :=
  let times := (results.filter fun r => decide (statusOf r = 200)).map elapsedOf
  ⟨n,
   (results.filter fun r => decide (statusOf r = 200)).length,
   (results.filter fun r => decide (¬ statusOf r = 200)).length,
   if times.isEmpty then none
   else some (pyMin times, pyMax times, times.sum / (times.length : ℚ))⟩

/-- Exceptions `run_basic_bot` can let escape: `ValueError` from
`ThreadPoolExecutor(max_workers=c)` when `c <= 0` (Python stdlib
behaviour), and `IndexError` from `self.requests[0]` inside
`RateLimiter.wait` when `rate <= 0`. -/
inductive PyError
  | valueError
  | indexError
deriving DecidableEq

/-- The futures submitted by the loop `for _ in range(n): wait(); submit(...)`:
the `i`-th submitted request completes with `req i`.  `range(n)` of a
Python int is empty for `n ≤ 0`. -/
def basicFutures (n : ℤ) (req : ℕ → ReqResult) : List ReqResult :=
  (List.range n.toNat).map req

/-- Embeds `run_basic_bot(url, n, c, rate)`.  Determinised inputs beyond the
source's parameters: `req i` is the result of the `i`-th submitted request,
`t0` the start instant, `delays i` the time between the previous `wait()`
return and the `i`-th `wait()` call, and `order` the completion order in
which `as_completed` yields the futures (an arbitrary permutation of
`range n.toNat`).  Returns the collected `results` list and the summary;
an escaping exception is an `error`.  The source performs no configuration
validation: the limiter is constructed unconditionally, `c <= 0` only
surfaces as the executor's `ValueError`, and `rate <= 0` as the first
`wait()`'s `IndexError` (when at least one attempt is dispatched). -/
def run_basic_bot (n c rate : ℤ) (req : ℕ → ReqResult) (t0 : ℚ)
    (delays : ℕ → ℚ) (order : List ℕ) :
    Except PyError (List ResultEntry × BasicSummary) :=
  let _rate_limiter := RateLimiter.make rate 1
  if c ≤ 0 then .error .valueError
  else
    match waitRun (RateLimiter.make rate 1) t0 ((List.range n.toNat).map delays) with
    | .error _ => .error .indexError
    | .ok _ =>
      let results := order.map (fun i => entryOfResult (req i))
      .ok (results, summarizeBasic n results)

namespace BrowserBot

/-- The summary block of `browser_impersonator_bot.main`: counters
`success_count` / `failure_count` and the timing stats over `times`.
Note that `times` receives the elapsed of every task, failures included
(`times.append(elapsed)` runs before the success test), so the stats are
absent only when `times` itself is empty. -/
structure BrowserSummary where
  successCount : ℕ
  failureCount : ℕ
  timingStats : Option (ℚ × ℚ × ℚ)
deriving DecidableEq

/-- Each task's recorded observation: the `success` boolean returned by
`run(...)` and the `elapsed = time.time() - start_time` it appends to
`times`. -/
def summarize (outcomes : List (Bool × ℚ)) : BrowserSummary :=
  let times := outcomes.map Prod.snd
  ⟨(outcomes.filter fun o => o.fst).length,
   (outcomes.filter fun o => !o.fst).length,
   if times.isEmpty then none
   else some (pyMin times, pyMax times, times.sum / (times.length : ℚ))⟩

/-- The attempt indices handed to the workers by
`tasks = [worker(i) for i in range(total_requests)]`. -/
def taskIndices (total_requests : ℤ) : List ℕ :=
  List.range total_requests.toNat

/-- Embeds `main`'s dispatch, collection of per-task observations, and
final summary: `order` is the completion order in which the cooperatively
scheduled workers append to `times` (a permutation of `taskIndices`),
`taskResults i` the `(success, elapsed)` observation of `worker(i)`.
Returns the indices the workers were created with, the recorded
observations, and the summary. -/
def browserMain (total_requests : ℤ) (taskResults : ℕ → Bool × ℚ)
    (order : List ℕ) : List ℕ × List (Bool × ℚ) × BrowserSummary :=
  let outcomes := order.map taskResults
  (taskIndices total_requests, outcomes, summarize outcomes)

/-- Embeds `run(playwright, url, rate_limiter, ...)` on its timed path:
called at instant `startRun` (just after the semaphore is acquired), it
first awaits `rate_limiter.wait()`, then performs the browser work, which
takes `workDur`; returns the updated limiter and the finish instant. -/
def run (rl : RateLimiter) (startRun : ℚ) (workDur : ℚ) :
    Except Unit (RateLimiter × ℚ) :=
  match rl.wait startRun with
  | .error e => .error e
  | .ok (rl', tAdmit) => .ok (rl', tAdmit + workDur)

/-- Embeds `main.worker(i)`'s timing: `start_time = time.time()` is captured
before `async with semaphore` (which is acquired `semDelay` later), `run`
then executes, and `elapsed = time.time() - start_time` is recorded at the
finish instant.  Returns the updated limiter and the recorded elapsed. -/
def worker (rl : RateLimiter) (start_time semDelay workDur : ℚ) :
    Except Unit (RateLimiter × ℚ) :=
  match run rl (start_time + semDelay) workDur with
  | .error e => .error e
  | .ok (rl', tFinish) => .ok (rl', tFinish - start_time)

end BrowserBot

/-- Phase of one dispatched attempt with respect to its work-unit
invocation: not yet admitted by the concurrency primitive, currently
executing the work unit, or finished. -/
inductive Phase
  | waiting
  | running
  | done
deriving DecidableEq

/-- Whether a phase is an in-flight (started-but-not-finished) work-unit
invocation. -/
def isInFlight : Phase → Bool
  | .running => true
  | _ => false

/-- State of the bounded-concurrency admission primitive shared by both
variants — `asyncio.Semaphore(concurrency)` around `run(...)` in the
browser bot, the pool of `max_workers=c` threads in the basic bot:
`avail` free permits, `tasks` the per-attempt phases. -/
structure DispatchState where
  avail : ℕ
  tasks : List Phase
deriving DecidableEq

/-- Number of work-unit invocations that have started but not finished. -/
def inFlight (s : DispatchState) : ℕ :=
  (s.tasks.filter isInFlight).length

/-- One scheduler step of the admission primitive (standard counting
semaphore semantics): a waiting attempt may start only by consuming a free
permit; a running attempt finishing returns its permit. -/
inductive DStep : DispatchState → DispatchState → Prop
  | acquire (a : ℕ) (l₁ l₂ : List Phase) :
      DStep ⟨a + 1, l₁ ++ Phase.waiting :: l₂⟩ ⟨a, l₁ ++ Phase.running :: l₂⟩
  | finish (a : ℕ) (l₁ l₂ : List Phase) :
      DStep ⟨a, l₁ ++ Phase.running :: l₂⟩ ⟨a + 1, l₁ ++ Phase.done :: l₂⟩

/-- States reachable during a run with concurrency cap `cap` and `n`
attempts: initially all permits are free and every attempt is waiting. -/
inductive DReachable (cap n : ℕ) : DispatchState → Prop
  | init : DReachable cap n ⟨cap, List.replicate n Phase.waiting⟩
  | step {s s' : DispatchState} :
      DReachable cap n s → DStep s s' → DReachable cap n s'

/-- Invariant carried by the limiter state between `wait()` calls observed
at instant `t`: the recorded timestamps are in order, none lies in the
future, and at most `R` of them are strictly inside the trailing window
`(t - W, t]`. -/
def WindowInv (R : ℤ) (W : ℚ) (s : List ℚ) (t : ℚ) : Prop :=
  s.Sorted (· ≤ ·) ∧ (∀ x ∈ s, x ≤ t) ∧
    ((s.filter fun x => decide (t - W < x)).length : ℤ) ≤ R

/-- The first element surviving `dropWhile` fails the predicate. -/
lemma dropWhile_head_false {α : Type} (p : α → Bool) (l : List α) (x : α)
    (xs : List α) (h : l.dropWhile p = x :: xs) : p x = false := by
  induction l with
  | nil => simp [List.dropWhile] at h
  | cons a t ih =>
    by_cases hp : p a
    · rw [List.dropWhile_cons_of_pos hp] at h
      exact ih h
    · rw [List.dropWhile_cons_of_neg hp] at h
      cases h
      simpa using hp

/-- On a sorted deque, the source's front-pruning loop removes exactly the
expired timestamps: `dropWhile (· ≤ c)` equals `filter (c < ·)`. -/
lemma sorted_dropWhile_le (c : ℚ) (l : List ℚ) (h : l.Sorted (· ≤ ·)) :
    l.dropWhile (fun t => decide (t ≤ c)) = l.filter (fun t => decide (c < t)) := by
  induction l with
  | nil => rfl
  | cons a t ih =>
    have ht : t.Sorted (· ≤ ·) := h.of_cons
    by_cases hac : a ≤ c
    · rw [List.dropWhile_cons_of_pos (by simpa using hac),
        List.filter_cons_of_neg (by simpa using not_lt.mpr hac)]
      exact ih ht
    · rw [List.dropWhile_cons_of_neg (by simpa using hac),
        List.filter_cons_of_pos (by simpa using not_le.mp hac)]
      congr 1
      exact (List.filter_eq_self.mpr fun b hb => by
        have hab : a ≤ b := List.rel_of_sorted_cons h b hb
        simpa using lt_of_lt_of_le (not_le.mp hac) hab).symm

/-- One `wait()` call preserves the window invariant: called at `t + d`
(any `d ≥ 0` after the instant `t` at which the invariant was last
observed), a successful call returns at some `ret ≥ t` with the invariant
re-established at `ret`, and leaves the configuration fields unchanged. -/
lemma wait_step_inv {R : ℤ} {W : ℚ} {s : List ℚ} {t d : ℚ}
    {rl' : RateLimiter} {ret : ℚ}
    (hInv : WindowInv R W s t) (hd : 0 ≤ d)
    (hw : RateLimiter.wait ⟨R, W, s⟩ (t + d) = .ok (rl', ret)) :
    rl'.rate_limit = R ∧ rl'.time_window = W ∧ t ≤ ret ∧
      WindowInv R W rl'.requests ret := by
  obtain ⟨hsort, hle, hcount⟩ := hInv
  have htnow : t ≤ t + d := by linarith
  have hprune : pruneRequests s (t + d - W)
      = s.filter (fun x => decide (t + d - W < x)) :=
    sorted_dropWhile_le _ _ hsort
  have hpsort : (pruneRequests s (t + d - W)).Sorted (· ≤ ·) :=
    hsort.sublist (List.dropWhile_sublist _)
  have hpmem : ∀ x ∈ pruneRequests s (t + d - W), x ≤ t + d := fun x hx =>
    le_trans (hle x ((List.dropWhile_sublist _).subset hx)) htnow
  have hpcount : ((pruneRequests s (t + d - W)).length : ℤ) ≤ R := by
    rw [hprune]
    have hsub : List.Sublist (s.filter fun x => decide (t + d - W < x))
        (s.filter fun x => decide (t - W < x)) :=
      s.monotone_filter_right (fun a ha => by
        simp only [decide_eq_true_eq] at ha ⊢
        linarith)
    calc ((s.filter fun x => decide (t + d - W < x)).length : ℤ)
        ≤ ((s.filter fun x => decide (t - W < x)).length : ℤ) := by
          exact_mod_cast hsub.length_le
      _ ≤ R := hcount
  rw [RateLimiter.wait] at hw
  simp only at hw
  split at hw
  case isTrue hsat =>
    cases hpr : pruneRequests s (t + d - W) with
    | nil =>
      rw [hpr] at hw
      cases hw
    | cons t0 rest =>
      rw [hpr] at hw
      have ht0 : t + d - W < t0 := by
        have := dropWhile_head_false (fun x => decide (x ≤ t + d - W)) s t0 rest hpr
        simpa using this
      have hsleep : t0 - (t + d - W) > 0 := by linarith
      dsimp only at hw
      rw [if_pos hsleep] at hw
      simp only [Except.ok.injEq, Prod.mk.injEq] at hw
      obtain ⟨hrl, hret⟩ := hw
      subst hrl
      have hretval : ret = t0 + W := by rw [← hret]; ring
      have hnowle : t + d ≤ ret := by rw [hretval]; linarith
      refine ⟨rfl, rfl, le_trans htnow hnowle, ?_, ?_, ?_⟩
      · show List.Sorted (· ≤ ·) ((t0 :: rest) ++ [t + d])
        rw [← hpr]
        refine List.pairwise_append.mpr ⟨hpsort, List.pairwise_singleton _ _, ?_⟩
        intro x hx y hy
        rw [List.mem_singleton] at hy
        subst hy
        exact hpmem x hx
      · show ∀ x ∈ (t0 :: rest) ++ [t + d], x ≤ ret
        intro x hx
        rcases List.mem_append.mp hx with hx | hx
        · rw [← hpr] at hx
          exact le_trans (hpmem x hx) hnowle
        · rw [List.mem_singleton] at hx
          subst hx
          exact hnowle
      · show ((((t0 :: rest) ++ [t + d]).filter fun x => decide (ret - W < x)).length : ℤ) ≤ R
        have hpred : (fun x => decide (ret - W < x)) = fun x => decide (t0 < x) := by
          funext x
          have hWW : ret - W = t0 := by rw [hretval]; ring
          rw [hWW]
        rw [hpred, List.filter_append, List.length_append]
        have h1 : (List.filter (fun x => decide (t0 < x)) (t0 :: rest)).length
            ≤ rest.length := by
          rw [List.filter_cons_of_neg (by simp)]
          exact (List.filter_sublist _).length_le
        have h2 : (List.filter (fun x => decide (t0 < x)) [t + d]).length ≤ 1 := by
          simpa using (List.filter_sublist ([t + d])).length_le
        have h3 : ((t0 :: rest).length : ℤ) ≤ R := by rw [← hpr]; exact hpcount
        simp only [List.length_cons] at h3
        push_cast
        push_cast at h3
        omega

  case isFalse hsat =>
    simp only [Except.ok.injEq, Prod.mk.injEq] at hw
    obtain ⟨hrl, hret⟩ := hw
    subst hrl
    subst hret
    refine ⟨rfl, rfl, htnow, ?_, ?_, ?_⟩
    · refine List.pairwise_append.mpr ⟨hpsort, List.pairwise_singleton _ _, ?_⟩
      intro x hx y hy
      rw [List.mem_singleton] at hy
      subst hy
      exact hpmem x hx
    · intro x hx
      rcases List.mem_append.mp hx with hx | hx
      · exact hpmem x hx
      · rw [List.mem_singleton] at hx
        subst hx
        exact le_refl _
    · rw [List.filter_append, List.length_append]
      have h1 : (List.filter (fun x => decide (t + d - W < x))
          (pruneRequests s (t + d - W))).length
          ≤ (pruneRequests s (t + d - W)).length :=
        (List.filter_sublist _).length_le
      have h2 : (List.filter (fun x => decide (t + d - W < x)) [t + d]).length
          ≤ 1 := by
        simpa using (List.filter_sublist ([t + d])).length_le
      have h3 : ((pruneRequests s (t + d - W)).length : ℤ) < R := by
        exact lt_of_not_ge hsat
      push_cast
      push_cast at h3
      omega

/-- A whole serial sequence of `wait()` calls preserves the window
invariant, observed at the final return instant (every prefix of a call
sequence is itself a call sequence, so this bounds the window count
immediately after every call). -/
lemma waitRun_inv {R : ℤ} {W : ℚ} (ds : List ℚ) :
    ∀ (s : List ℚ) (t : ℚ), (∀ d ∈ ds, 0 ≤ d) → WindowInv R W s t →
      ∀ (rl' : RateLimiter) (ret : ℚ),
        waitRun ⟨R, W, s⟩ t ds = .ok (rl', ret) →
        rl'.rate_limit = R ∧ rl'.time_window = W ∧
          WindowInv R W rl'.requests ret := by
  induction ds with
  | nil =>
    intro s t _ hInv rl' ret hw
    simp only [waitRun, Except.ok.injEq, Prod.mk.injEq] at hw
    obtain ⟨h1, h2⟩ := hw
    subst h1
    subst h2
    exact ⟨rfl, rfl, hInv⟩
  | cons d ds ih =>
    intro s t hd hInv rl' ret hw
    rw [waitRun] at hw
    cases hwait : RateLimiter.wait ⟨R, W, s⟩ (t + d) with
    | error e =>
      rw [hwait] at hw
      cases hw
    | ok p =>
      obtain ⟨rlm, retm⟩ := p
      rw [hwait] at hw
      obtain ⟨hf1, hf2, _, hInv2⟩ :=
        wait_step_inv hInv (hd d (List.mem_cons_self d ds)) hwait
      obtain ⟨Rm, Wm, reqm⟩ := rlm
      dsimp only at hf1 hf2 hInv2
      subst hf1
      subst hf2
      exact ih reqm retm (fun x hx => hd x (List.mem_cons_of_mem _ hx)) hInv2 rl' ret hw

/-- With `rate_limit ≥ 1` a `wait()` call never raises: the saturated
branch always finds a head timestamp, so the call returns normally and
leaves the configuration fields unchanged. -/
lemma wait_ok_of_pos_rate (rl : RateLimiter) (h : 1 ≤ rl.rate_limit)
    (now : ℚ) :
    ∃ requests' ret,
      rl.wait now = .ok (⟨rl.rate_limit, rl.time_window, requests'⟩, ret) := by
  rw [RateLimiter.wait]
  simp only
  split
  case isTrue hsat =>
    cases hpr : pruneRequests rl.requests (now - rl.time_window) with
    | nil =>
      rw [hpr] at hsat
      simp only [List.length_nil, Nat.cast_zero, ge_iff_le] at hsat
      omega
    | cons t0 rest =>
      exact ⟨_, _, rfl⟩
  case isFalse hsat =>
    exact ⟨_, _, rfl⟩

/-- With `rate_limit ≥ 1` a whole serial sequence of `wait()` calls never
raises. -/
lemma waitRun_ok (ds : List ℚ) :
    ∀ (rl : RateLimiter), 1 ≤ rl.rate_limit → ∀ (t : ℚ),
      ∃ out, waitRun rl t ds = .ok out := by
  induction ds with
  | nil =>
    intro rl _ t
    exact ⟨(rl, t), rfl⟩
  | cons d ds ih =>
    intro rl h t
    obtain ⟨req', ret, hw⟩ := wait_ok_of_pos_rate rl h (t + d)
    rw [waitRun, hw]
    exact ih ⟨rl.rate_limit, rl.time_window, req'⟩ h ret

/-- `wait()` never returns earlier than the instant it was called at. -/
lemma wait_ret_ge {rl rl' : RateLimiter} {now ret : ℚ}
    (hw : rl.wait now = .ok (rl', ret)) : now ≤ ret := by
  rw [RateLimiter.wait] at hw
  simp only at hw
  split at hw
  case isTrue =>
    cases hpr : pruneRequests rl.requests (now - rl.time_window) with
    | nil =>
      rw [hpr] at hw
      cases hw
    | cons t0 rest =>
      rw [hpr] at hw
      dsimp only at hw
      split at hw
      case isTrue hpos =>
        simp only [Except.ok.injEq, Prod.mk.injEq] at hw
        obtain ⟨_, hret⟩ := hw
        rw [← hret]
        linarith
      case isFalse =>
        simp only [Except.ok.injEq, Prod.mk.injEq] at hw
        obtain ⟨_, hret⟩ := hw
        rw [← hret]
  case isFalse =>
    simp only [Except.ok.injEq, Prod.mk.injEq] at hw
    obtain ⟨_, hret⟩ := hw
    rw [← hret]

/-- Python's `min` over a list is insensitive to the order of the list. -/
lemma pyMin_perm {l₁ l₂ : List ℚ} (h : l₁.Perm l₂) : pyMin l₁ = pyMin l₂ := by
  induction h with
  | nil => rfl
  | cons x p ih =>
    simp only [pyMin]
    exact p.foldl_eq x
  | swap x y l =>
    simp only [pyMin, List.foldl_cons]
    rw [min_comm y x]
  | trans p₁ p₂ ih₁ ih₂ =>
    rw [ih₁, ih₂]

/-- Python's `max` over a list is insensitive to the order of the list. -/
lemma pyMax_perm {l₁ l₂ : List ℚ} (h : l₁.Perm l₂) : pyMax l₁ = pyMax l₂ := by
  induction h with
  | nil => rfl
  | cons x p ih =>
    simp only [pyMax]
    exact p.foldl_eq x
  | swap x y l =>
    simp only [pyMax, List.foldl_cons]
    rw [max_comm y x]
  | trans p₁ p₂ ih₁ ih₂ =>
    rw [ih₁, ih₂]

/-- C1, counterexample to the claim as stated (closed trailing interval
`[now - W, now]`): with `rateLimit = 1`, `window = 1`, two `acquire()`
calls both arriving at instant `0`, the second call returns at instant `1`
with recorded timestamps `[0, 0]`, and both of them lie inside the closed
interval `[1 - 1, 1] = [0, 1]` — the closed-window count is `2 > 1`.  (The
boundary timestamp sits exactly at `now - W`; the code's own pruning rule
treats such a timestamp as expired, so only the half-open window bound
holds.) -/
theorem C1_sliding_window_counterexample :
    waitRun (RateLimiter.make 1 1) 0 [0, 0] = .ok (⟨1, 1, [0, 0]⟩, 1) ∧
    ¬ ((((⟨1, 1, [0, 0]⟩ : RateLimiter).requests.filter
          fun x => decide ((1 : ℚ) - 1 ≤ x ∧ x ≤ 1)).length : ℤ) ≤ 1) := by
  constructor
  · norm_num [waitRun, RateLimiter.wait, RateLimiter.make, pruneRequests,
      List.dropWhile]
  · norm_num [List.filter]

/-- C1 (amended): sliding-window invariant with the half-open trailing
window `(now - W, now]` (matching the source's pruning rule, which expires
a timestamp exactly `W` old): for every serial sequence of `acquire()`
calls on a limiter built with `rateLimit = R ≥ 1` and `window = W`,
immediately after any call returns the number of recorded admission
timestamps strictly newer than `now - W` (all of which are `≤ now`) is at
most `R`. -/
theorem C1_sliding_window_halfopen (R : ℤ) (W t : ℚ) (ds : List ℚ)
    (rl' : RateLimiter) (ret : ℚ)
    (hR : 1 ≤ R) (hds : ∀ d ∈ ds, 0 ≤ d)
    (hrun : waitRun (RateLimiter.make R W) t ds = .ok (rl', ret)) :
    ((rl'.requests.filter fun x => decide (ret - W < x ∧ x ≤ ret)).length : ℤ)
      ≤ R := by
  have hInv0 : WindowInv R W [] t := by
    refine ⟨List.sorted_nil, ?_, ?_⟩
    · intro x hx
      cases hx
    · simp only [List.filter_nil, List.length_nil, Nat.cast_zero]
      omega
  have hrun' : waitRun ⟨R, W, []⟩ t ds = .ok (rl', ret) := hrun
  obtain ⟨_, _, _, _, hcount⟩ := waitRun_inv ds [] t hds hInv0 rl' ret hrun'
  have hsub : List.Sublist
      (rl'.requests.filter fun x => decide (ret - W < x ∧ x ≤ ret))
      (rl'.requests.filter fun x => decide (ret - W < x)) :=
    rl'.requests.monotone_filter_right (fun a ha => by
      simp only [decide_eq_true_eq] at ha ⊢
      exact ha.1)
  calc ((rl'.requests.filter fun x => decide (ret - W < x ∧ x ≤ ret)).length : ℤ)
      ≤ ((rl'.requests.filter fun x => decide (ret - W < x)).length : ℤ) := by
        exact_mod_cast hsub.length_le
    _ ≤ R := hcount

/-- C1 witness: the half-open window bound evaluated on the concrete run
of the counterexample (`R = 1`, `W = 1`, two calls at instant `0`). -/
theorem C1_sliding_window_halfopen_witness :
    ((((⟨1, 1, [0, 0]⟩ : RateLimiter).requests.filter
        fun x => decide ((1 : ℚ) - 1 < x ∧ x ≤ 1)).length : ℤ) ≤ 1) :=
  C1_sliding_window_halfopen 1 1 0 [0, 0] ⟨1, 1, [0, 0]⟩ 1 (by norm_num)
    (by intro d hd; simp only [List.mem_cons, List.not_mem_nil, or_false] at hd
        rcases hd with rfl | rfl <;> norm_num)
    (by norm_num [waitRun, RateLimiter.wait, RateLimiter.make, pruneRequests,
      List.dropWhile])

/-- C2, counterexample to the claim as stated: with `rateLimit = 1`,
`window = 1` and one recorded admission at instant `0`, a saturated
`wait()` call at instant `0` sleeps for `1` and returns at instant `1`,
but the timestamp it appends (the last element of the deque) is the
pre-sleep `now = 0`, not the post-wake instant `1`. -/
theorem C2_saturated_append_counterexample :
    RateLimiter.wait ⟨1, 1, [0]⟩ 0 = .ok (⟨1, 1, [0, 0]⟩, 1) ∧
    (⟨1, 1, [0, 0]⟩ : RateLimiter).requests.getLast? = some 0 ∧
    (0 : ℚ) ≠ 1 := by
  refine ⟨?_, ?_, ?_⟩
  · norm_num [RateLimiter.wait, pruneRequests, List.dropWhile]
  · rfl
  · norm_num

/-- C2 (amended): whenever, after pruning timestamps `≤ now - window`, the
remaining count is at least `rateLimit` (with `rateLimit ≥ 1`), `wait()`
finds a head timestamp `t0` strictly newer than `now - window`, so
`sleepFor = t0 + window - now` is positive; it suspends once for exactly
that duration, returning at `now + sleepFor`, and the timestamp it appends
to the admission sequence is the pre-sleep `now` — not the post-wake
instant. -/
theorem C2_saturated_path (rl : RateLimiter) (now : ℚ)
    (hR : 1 ≤ rl.rate_limit)
    (hsat : ((pruneRequests rl.requests (now - rl.time_window)).length : ℤ)
      ≥ rl.rate_limit) :
    ∃ t0 rest,
      pruneRequests rl.requests (now - rl.time_window) = t0 :: rest ∧
      0 < t0 - (now - rl.time_window) ∧
      rl.wait now = .ok
        (⟨rl.rate_limit, rl.time_window,
          pruneRequests rl.requests (now - rl.time_window) ++ [now]⟩,
         now + (t0 - (now - rl.time_window))) := by
  cases hpr : pruneRequests rl.requests (now - rl.time_window) with
  | nil =>
    rw [hpr] at hsat
    simp only [List.length_nil, Nat.cast_zero, ge_iff_le] at hsat
    omega
  | cons t0 rest =>
    have ht0 : now - rl.time_window < t0 := by
      have := dropWhile_head_false _ _ _ _ hpr
      simpa using this
    have hsleep : 0 < t0 - (now - rl.time_window) := by linarith
    refine ⟨t0, rest, rfl, hsleep, ?_⟩
    rw [RateLimiter.wait]
    simp only
    rw [hpr] at hsat
    rw [hpr, if_pos hsat]
    dsimp only
    rw [if_pos hsleep]

/-- C2 witness: the amended saturated-path description evaluated at the
concrete limiter of the counterexample. -/
theorem C2_saturated_path_witness :
    ∃ t0 rest,
      pruneRequests (⟨1, 1, [0]⟩ : RateLimiter).requests
        ((0 : ℚ) - (⟨1, 1, [0]⟩ : RateLimiter).time_window) = t0 :: rest ∧
      0 < t0 - ((0 : ℚ) - (⟨1, 1, [0]⟩ : RateLimiter).time_window) ∧
      RateLimiter.wait ⟨1, 1, [0]⟩ 0 = .ok
        (⟨(⟨1, 1, [0]⟩ : RateLimiter).rate_limit,
          (⟨1, 1, [0]⟩ : RateLimiter).time_window,
          pruneRequests (⟨1, 1, [0]⟩ : RateLimiter).requests
            ((0 : ℚ) - (⟨1, 1, [0]⟩ : RateLimiter).time_window) ++ [0]⟩,
         0 + (t0 - ((0 : ℚ) - (⟨1, 1, [0]⟩ : RateLimiter).time_window))) :=
  C2_saturated_path ⟨1, 1, [0]⟩ 0 (by norm_num)
    (by norm_num [pruneRequests, List.dropWhile])

/-- In the HTTP variant the timing stats are absent exactly when no
recorded entry has status 200. -/
lemma summarizeBasic_timingStats_none_iff (n : ℤ) (res : List ResultEntry) :
    (summarizeBasic n res).timingStats = none ↔ ∀ r ∈ res, statusOf r ≠ 200 := by
  simp only [summarizeBasic]
  constructor
  · intro h
    by_cases he :
        ((res.filter fun r => decide (statusOf r = 200)).map elapsedOf).isEmpty
    · rw [List.isEmpty_iff, List.map_eq_nil_iff, List.filter_eq_nil_iff] at he
      intro r hr
      simpa using he r hr
    · rw [if_neg he] at h
      cases h
  · intro h
    rw [if_pos]
    rw [List.isEmpty_iff, List.map_eq_nil_iff, List.filter_eq_nil_iff]
    intro r hr
    simpa using h r hr

/-- In the browser variant the timing stats are absent exactly when there
are no recorded outcomes at all (successful or not). -/
lemma browser_timingStats_none_iff (outs : List (Bool × ℚ)) :
    (BrowserBot.summarize outs).timingStats = none ↔ outs = [] := by
  simp only [BrowserBot.summarize]
  constructor
  · intro h
    by_cases he : (outs.map Prod.snd).isEmpty
    · rwa [List.isEmpty_iff, List.map_eq_nil_iff] at he
    · rw [if_neg he] at h
      cases h
  · intro h
    subst h
    rfl

/-- C3, counterexample to the claim as stated: in the browser variant a
run whose single outcome failed (`succeeded = false`, elapsed `5`) still
gets timing stats — `times` receives every task's elapsed, so with zero
successes `minElapsed = maxElapsed = avgElapsed = 5` are present, not
absent. -/
theorem C3_timing_counterexample :
    (BrowserBot.summarize [(false, 5)]).successCount = 0 ∧
    BrowserBot.summarize [(false, 5)] =
      ⟨0, 1, some (5, 5, 5)⟩ := by
  constructor
  · rfl
  · simp only [BrowserBot.summarize, List.map_cons, List.map_nil, pyMin, pyMax]
    norm_num [List.filter]

/-- C3 (amended): in the HTTP variant the timing statistics are computed
only over successful (status 200) outcomes — appending any number of
failed entries leaves them unchanged, and they are absent exactly when
there is no successful outcome; in the browser variant, however, `times`
receives every outcome's elapsed, so the stats are absent only when there
are no outcomes at all (they are present, over all outcomes' elapsed
values, whenever any attempt ran — even if every attempt failed). -/
theorem C3_timing_stats (n : ℤ) (res fails : List ResultEntry)
    (outs : List (Bool × ℚ))
    (hf : ∀ r ∈ fails, statusOf r ≠ 200) :
    (summarizeBasic n (res ++ fails)).timingStats
        = (summarizeBasic n res).timingStats ∧
    ((summarizeBasic n res).timingStats = none ↔ ∀ r ∈ res, statusOf r ≠ 200) ∧
    ((BrowserBot.summarize outs).timingStats = none ↔ outs = []) := by
  refine ⟨?_, summarizeBasic_timingStats_none_iff n res,
    browser_timingStats_none_iff outs⟩
  have hnil : fails.filter (fun r => decide (statusOf r = 200)) = [] :=
    List.filter_eq_nil_iff.mpr (fun r hr => by simpa using hf r hr)
  simp only [summarizeBasic, List.filter_append, hnil, List.append_nil]

/-- C3 witness: with one successful entry and one appended failure in the
HTTP variant and one failed browser outcome, the amended statement holds at
a concrete input. -/
theorem C3_timing_stats_witness :
    (summarizeBasic 2 ([ResultEntry.pair 200 1] ++ [ResultEntry.triple])).timingStats
        = (summarizeBasic 2 [ResultEntry.pair 200 1]).timingStats ∧
    ((summarizeBasic 2 [ResultEntry.pair 200 1]).timingStats = none ↔
      ∀ r ∈ [ResultEntry.pair 200 1], statusOf r ≠ 200) ∧
    ((BrowserBot.summarize [(false, 5)]).timingStats = none ↔
      [(false, (5 : ℚ))] = []) :=
  C3_timing_stats 2 [ResultEntry.pair 200 1] [ResultEntry.triple] [(false, 5)]
    (by intro r hr
        simp only [List.mem_singleton] at hr
        subst hr
        simp [statusOf])

/-- C4, counterexample to the claim as stated: no `ConfigError` (nor any
exception) is raised for `N = -1, C = 1, R = 1` — the source has no
validation at all, `range(-1)` is simply empty, and the run completes
normally with a summary reporting `total = -1` and zero attempts. -/
theorem C4_no_config_error_counterexample :
    run_basic_bot (-1) 1 1 (fun _ => .exn "boom") 0 (fun _ => 0) [] =
      .ok ([], ⟨-1, 0, 0, none⟩) := rfl

/-- C4 (amended): the source performs no configuration validation and
defines no `ConfigError`.  With `N < 0` (and a live executor, `C ≥ 1`) the
run dispatches zero attempts and completes normally; `C ≤ 0` surfaces as
the thread pool's `ValueError`; `R ≤ 0` (with at least one attempt to
dispatch) surfaces as an `IndexError` inside the first `wait()` call —
after the limiter was already constructed, not at construction. -/
theorem C4_validation_behavior (n c rate : ℤ) (req : ℕ → ReqResult) (t0 : ℚ)
    (delays : ℕ → ℚ) (order : List ℕ) :
    (n < 0 → 1 ≤ c → order.Perm (List.range n.toNat) →
      run_basic_bot n c rate req t0 delays order = .ok ([], ⟨n, 0, 0, none⟩)) ∧
    (c ≤ 0 → run_basic_bot n c rate req t0 delays order = .error .valueError) ∧
    (rate ≤ 0 → 1 ≤ c → 1 ≤ n →
      run_basic_bot n c rate req t0 delays order = .error .indexError) := by
  refine ⟨?_, ?_, ?_⟩
  · intro hn hc hperm
    have htn : n.toNat = 0 := by omega
    rw [htn] at hperm
    have horder : order = [] := by
      simpa using hperm.eq_nil
    subst horder
    rw [run_basic_bot, if_neg (by omega), htn]
    rfl
  · intro hc
    rw [run_basic_bot, if_pos hc]
  · intro hrate hc hn
    have h1 : 1 ≤ n.toNat := by omega
    rw [run_basic_bot, if_neg (by omega)]
    cases hk : n.toNat with
    | zero => omega
    | succ k =>
      rw [List.range_succ_eq_map, List.map_cons]
      have hwait : RateLimiter.wait (RateLimiter.make rate 1) (t0 + delays 0)
          = .error () := by
        rw [RateLimiter.wait]
        simp only [RateLimiter.make, pruneRequests, List.dropWhile, List.length_nil,
          Nat.cast_zero, ge_iff_le]
        rw [if_pos hrate]
      rw [waitRun, hwait]
  
/-- C4 witness: the three spec-named configurations, evaluated — `(N=-1,
C=1, R=1)` completes normally with zero attempts, `(N=5, C=0, R=5)` dies
with the executor's `ValueError`, `(N=5, C=5, R=0)` dies with the rate
limiter's `IndexError`; none of them raises a `ConfigError` before
dispatch. -/
theorem C4_validation_behavior_witness :
    run_basic_bot (-1) 1 1 (fun _ => .exn "x") 0 (fun _ => 0) [] =
      .ok ([], ⟨-1, 0, 0, none⟩) ∧
    run_basic_bot 5 0 5 (fun _ => .exn "x") 0 (fun _ => 0) [] =
      .error .valueError ∧
    run_basic_bot 5 5 0 (fun _ => .exn "x") 0 (fun _ => 0) [] =
      .error .indexError := by
  refine ⟨?_, ?_, ?_⟩
  · exact (C4_validation_behavior (-1) 1 1 (fun _ => .exn "x") 0 (fun _ => 0) []).1
      (by norm_num) (by norm_num) (by rw [show ((-1 : ℤ)).toNat = 0 from rfl]; rfl)
  · exact (C4_validation_behavior 5 0 5 (fun _ => .exn "x") 0 (fun _ => 0) []).2.1
      (by norm_num)
  · exact (C4_validation_behavior 5 5 0 (fun _ => .exn "x") 0 (fun _ => 0) []).2.2
      (by norm_num) (by norm_num) (by norm_num)

/-- C5, counterexample to the claim as stated: in the HTTP variant the
recorded outcome of a failed attempt is the constant `(0, 0, 0)` — it does
not carry the failure reason: two attempts failing for different reasons
produce identical records, so the reason is not recoverable from the
recorded outcome (it is only logged). -/
theorem C5_reason_lost_counterexample :
    entryOfResult (ReqResult.exn "connection refused")
      = entryOfResult (ReqResult.exn "timeout") ∧
    "connection refused" ≠ "timeout" :=
  ⟨rfl, by decide⟩

/-- C5 (amended): failure isolation holds, but the HTTP variant's failure
record is the reason-less sentinel `(0, 0, 0)`: on every attempt whose
work unit raises, the dispatcher records a failed outcome, never retries,
never propagates the error out of the run, and all other attempts still
run and are counted — a work unit that always fails yields a normal
summary with `successCount = 0`, `failureCount = N`, `total = N`, timing
stats absent, and exactly `N` recorded outcomes. -/
theorem C5_failure_isolation (n c rate : ℤ) (req : ℕ → ReqResult) (t0 : ℚ)
    (delays : ℕ → ℚ) (order : List ℕ)
    (hreq : ∀ i, ∃ msg, req i = .exn msg)
    (hc : 1 ≤ c) (hrate : 1 ≤ rate)
    (hperm : order.Perm (List.range n.toNat)) :
    ∃ res, run_basic_bot n c rate req t0 delays order
        = .ok (res, ⟨n, 0, n.toNat, none⟩) ∧ res.length = n.toNat := by
  simp only [run_basic_bot]
  rw [if_neg (by omega : ¬ c ≤ 0)]
  obtain ⟨out, hout⟩ := waitRun_ok ((List.range n.toNat).map delays)
    (RateLimiter.make rate 1) hrate t0
  rw [hout]
  refine ⟨order.map (fun i => entryOfResult (req i)), ?_, ?_⟩
  · have hall : ∀ r ∈ order.map (fun i => entryOfResult (req i)),
        r = ResultEntry.triple := by
      intro r hr
      rw [List.mem_map] at hr
      obtain ⟨i, _, hri⟩ := hr
      obtain ⟨msg, hmsg⟩ := hreq i
      rw [hmsg] at hri
      exact hri.symm
    have h200 : (order.map (fun i => entryOfResult (req i))).filter
        (fun r => decide (statusOf r = 200)) = [] :=
      List.filter_eq_nil_iff.mpr (fun r hr => by
        rw [hall r hr]
        simp [statusOf])
    have hne : (order.map (fun i => entryOfResult (req i))).filter
        (fun r => decide (¬ statusOf r = 200))
        = order.map (fun i => entryOfResult (req i)) :=
      List.filter_eq_self.mpr (fun r hr => by
        rw [hall r hr]
        simp [statusOf])
    have hlen : (order.map (fun i => entryOfResult (req i))).length = n.toNat := by
      rw [List.length_map, hperm.length_eq, List.length_range]
    simp only [summarizeBasic, h200, hne, hlen, List.map_nil, List.isEmpty_nil,
      if_pos, List.length_nil]
  · rw [List.length_map, hperm.length_eq, List.length_range]

/-- C5 witness: the spec's scenario — a work unit that always fails, run
with `N = 10`, `C = 3` — yields `successCount = 0`, `failureCount = 10`,
`total = 10`, no timing stats, and ten recorded outcomes. -/
theorem C5_failure_isolation_witness :
    ∃ res, run_basic_bot 10 3 5 (fun _ => .exn "fail") 0 (fun _ => 0)
        (List.range (10 : ℤ).toNat)
        = .ok (res, ⟨10, 0, (10 : ℤ).toNat, none⟩) ∧
      res.length = (10 : ℤ).toNat :=
  C5_failure_isolation 10 3 5 (fun _ => .exn "fail") 0 (fun _ => 0)
    (List.range (10 : ℤ).toNat) (fun _ => ⟨"fail", rfl⟩) (by norm_num)
    (by norm_num) (List.Perm.refl _)

/-- The timing-stats expression of both summaries is insensitive to the
order of the `times` list. -/
lemma pyStats_perm {l₁ l₂ : List ℚ} (h : l₁.Perm l₂) :
    (if l₁.isEmpty then (none : Option (ℚ × ℚ × ℚ))
     else some (pyMin l₁, pyMax l₁, l₁.sum / (l₁.length : ℚ)))
    = (if l₂.isEmpty then none
       else some (pyMin l₂, pyMax l₂, l₂.sum / (l₂.length : ℚ))) := by
  have hlen := h.length_eq
  have hemp : l₁.isEmpty = l₂.isEmpty := by
    rw [Bool.eq_iff_iff, List.isEmpty_iff_length_eq_zero,
      List.isEmpty_iff_length_eq_zero, hlen]
  rw [hemp, pyMin_perm h, pyMax_perm h, h.sum_eq, hlen]

/-- C6: exactly-N dispatch — with a valid configuration the HTTP variant
submits exactly `N` futures and records exactly `N` outcomes, and the
browser variant creates one worker per index of `range(N)`: the indices
are pairwise distinct, all lie in `[0, N)`, and there are exactly `N` of
them. -/
theorem C6_exact_dispatch (n c rate : ℤ) (req : ℕ → ReqResult) (t0 : ℚ)
    (delays : ℕ → ℚ) (order : List ℕ)
    (hn : 0 ≤ n) (hc : 1 ≤ c) (hrate : 1 ≤ rate)
    (hperm : order.Perm (List.range n.toNat)) :
    ((basicFutures n req).length : ℤ) = n ∧
    (∃ res sum, run_basic_bot n c rate req t0 delays order = .ok (res, sum) ∧
      (res.length : ℤ) = n) ∧
    (BrowserBot.taskIndices n).Nodup ∧
    (∀ i ∈ BrowserBot.taskIndices n, (i : ℤ) < n) ∧
    ((BrowserBot.taskIndices n).length : ℤ) = n := by
  refine ⟨?_, ?_, ?_, ?_, ?_⟩
  · rw [basicFutures, List.length_map, List.length_range]
    exact Int.toNat_of_nonneg hn
  · simp only [run_basic_bot]
    rw [if_neg (by omega : ¬ c ≤ 0)]
    obtain ⟨o, ho⟩ := waitRun_ok ((List.range n.toNat).map delays)
      (RateLimiter.make rate 1) hrate t0
    rw [ho]
    refine ⟨_, _, rfl, ?_⟩
    rw [List.length_map, hperm.length_eq, List.length_range]
    exact Int.toNat_of_nonneg hn
  · exact List.nodup_range n.toNat
  · intro i hi
    rw [BrowserBot.taskIndices, List.mem_range] at hi
    omega
  · rw [BrowserBot.taskIndices, List.length_range]
    exact Int.toNat_of_nonneg hn

/-- C6 witness: a concrete valid run with `N = 3`, `C = 2`, `R = 5`. -/
theorem C6_exact_dispatch_witness :
    ((basicFutures 3 (fun _ => ReqResult.ok 200 1)).length : ℤ) = 3 ∧
    (∃ res sum, run_basic_bot 3 2 5 (fun _ => ReqResult.ok 200 1) 0
        (fun _ => 0) (List.range (3 : ℤ).toNat) = .ok (res, sum) ∧
      (res.length : ℤ) = 3) ∧
    (BrowserBot.taskIndices 3).Nodup ∧
    (∀ i ∈ BrowserBot.taskIndices 3, (i : ℤ) < 3) ∧
    ((BrowserBot.taskIndices 3).length : ℤ) = 3 :=
  C6_exact_dispatch 3 2 5 (fun _ => ReqResult.ok 200 1) 0 (fun _ => 0)
    (List.range (3 : ℤ).toNat) (by norm_num) (by norm_num) (by norm_num)
    (List.Perm.refl _)

/-- In any reachable state of the admission primitive, the in-flight count
plus the free permits always equals the concurrency cap. -/
lemma DReachable_inFlight_avail {cap n : ℕ} {s : DispatchState}
    (h : DReachable cap n s) : inFlight s + s.avail = cap := by
  induction h with
  | init =>
    have hrep : (List.replicate n Phase.waiting).filter isInFlight = [] := by
      induction n with
      | zero => rfl
      | succ k ih =>
        rw [List.replicate_succ, List.filter_cons_of_neg (by simp [isInFlight])]
        exact ih
    simp [inFlight, hrep]
  | step hr hstep ih =>
    cases hstep with
    | acquire a l₁ l₂ =>
      simp only [inFlight, List.filter_append, List.length_append,
        List.filter_cons, isInFlight] at ih ⊢
      simp only [Bool.false_eq_true, if_false, if_true, List.length_cons] at ih ⊢
      omega
    | finish a l₁ l₂ =>
      simp only [inFlight, List.filter_append, List.length_append,
        List.filter_cons, isInFlight] at ih ⊢
      simp only [Bool.false_eq_true, if_false, if_true, List.length_cons] at ih ⊢
      omega

/-- C7: concurrency-cap enforcement — for every cap `C ≥ 1`, every number
of attempts, and every state reachable by the admission primitive that
both variants use around the work unit (`asyncio.Semaphore(concurrency)`
in the browser bot, the pool of `max_workers=c` threads in the basic bot),
the number of work-unit invocations that have started but not finished
never exceeds `C`. -/
theorem C7_concurrency_cap (cap n : ℕ) (s : DispatchState)
    (_hcap : 1 ≤ cap) (h : DReachable cap n s) : inFlight s ≤ cap := by
  have hinv := DReachable_inFlight_avail h
  omega

/-- C7 witness: with `C = 1` and two attempts, the state after admitting
the first attempt is reachable and has exactly one in-flight invocation. -/
theorem C7_concurrency_cap_witness :
    inFlight ⟨0, [Phase.running, Phase.waiting]⟩ ≤ 1 :=
  C7_concurrency_cap 1 2 ⟨0, [Phase.running, Phase.waiting]⟩ (by norm_num)
    (DReachable.step DReachable.init (DStep.acquire 0 [] [Phase.waiting]))

/-- C8: order-independence of the summary — permuting the recorded
outcomes (in either variant) leaves every field of the computed summary
unchanged: the counts are filter lengths and the timing stats are
min/max/mean over a multiset. -/
theorem C8_summary_order_independent (n : ℤ)
    (res₁ res₂ : List ResultEntry) (outs₁ outs₂ : List (Bool × ℚ))
    (hres : res₁.Perm res₂) (houts : outs₁.Perm outs₂) :
    summarizeBasic n res₁ = summarizeBasic n res₂ ∧
    BrowserBot.summarize outs₁ = BrowserBot.summarize outs₂ := by
  constructor
  · simp only [summarizeBasic, BasicSummary.mk.injEq]
    exact ⟨trivial, (hres.filter _).length_eq, (hres.filter _).length_eq,
      pyStats_perm ((hres.filter _).map _)⟩
  · simp only [BrowserBot.summarize, BrowserBot.BrowserSummary.mk.injEq]
    exact ⟨(houts.filter _).length_eq, (houts.filter _).length_eq,
      pyStats_perm (houts.map _)⟩

/-- C8 witness: a two-outcome run, recorded in the two possible completion
orders, summarizes identically in both variants. -/
theorem C8_summary_order_independent_witness :
    summarizeBasic 2 [ResultEntry.pair 200 1, ResultEntry.triple]
        = summarizeBasic 2 [ResultEntry.triple, ResultEntry.pair 200 1] ∧
    BrowserBot.summarize [(true, 1), (false, 7)]
        = BrowserBot.summarize [(false, 7), (true, 1)] :=
  C8_summary_order_independent 2 _ _ _ _
    (List.Perm.swap ResultEntry.triple (ResultEntry.pair 200 1) [])
    (List.Perm.swap (false, 7) (true, 1) [])

/-- C9: total completion — for every valid configuration (`N ≥ 0`,
`C ≥ 1`, `R ≥ 1`) and every work unit (including one that fails on every
attempt), the run completes without raising and produces a summary. -/
theorem C9_total_completion (n c rate : ℤ) (req : ℕ → ReqResult) (t0 : ℚ)
    (delays : ℕ → ℚ) (order : List ℕ)
    (_hn : 0 ≤ n) (hc : 1 ≤ c) (hrate : 1 ≤ rate) :
    ∃ out, run_basic_bot n c rate req t0 delays order = .ok out := by
  simp only [run_basic_bot]
  rw [if_neg (by omega : ¬ c ≤ 0)]
  obtain ⟨o, ho⟩ := waitRun_ok ((List.range n.toNat).map delays)
    (RateLimiter.make rate 1) hrate t0
  rw [ho]
  exact ⟨_, rfl⟩

/-- C9 witness: a run in which every attempt fails (`N = 2`, `C = 1`,
`R = 1`) still completes and produces a summary. -/
theorem C9_total_completion_witness :
    ∃ out, run_basic_bot 2 1 1 (fun _ => ReqResult.exn "always fails") 0
      (fun _ => 0) [0, 1] = .ok out :=
  C9_total_completion 2 1 1 (fun _ => ReqResult.exn "always fails") 0
    (fun _ => 0) [0, 1] (by norm_num) (by norm_num) (by norm_num)

/-- C10: in the browser variant the recorded `elapsed` of an attempt is
measured from the worker task's start instant, captured before the
semaphore is acquired and before the rate limiter's wait, so it decomposes
as semaphore-queueing delay plus rate-gating delay plus work duration —
not the work duration alone. -/
theorem C10_elapsed_includes_queueing (rl : RateLimiter)
    (start_time semDelay workDur : ℚ) (rl' : RateLimiter) (elapsed : ℚ)
    (hw : BrowserBot.worker rl start_time semDelay workDur
      = .ok (rl', elapsed)) :
    ∃ rateDelay, 0 ≤ rateDelay ∧
      elapsed = semDelay + rateDelay + workDur := by
  rw [BrowserBot.worker] at hw
  cases hrun : BrowserBot.run rl (start_time + semDelay) workDur with
  | error e =>
    rw [hrun] at hw
    cases hw
  | ok p =>
    obtain ⟨rlm, tFin⟩ := p
    rw [hrun] at hw
    simp only [Except.ok.injEq, Prod.mk.injEq] at hw
    obtain ⟨hrl, hel⟩ := hw
    rw [BrowserBot.run] at hrun
    cases hwait : rl.wait (start_time + semDelay) with
    | error e =>
      rw [hwait] at hrun
      cases hrun
    | ok q =>
      obtain ⟨rlw, tAdmit⟩ := q
      rw [hwait] at hrun
      simp only [Except.ok.injEq, Prod.mk.injEq] at hrun
      obtain ⟨h1, h2⟩ := hrun
      have hge := wait_ret_ge hwait
      refine ⟨tAdmit - (start_time + semDelay), by linarith, ?_⟩
      rw [← hel, ← h2]
      ring

/-- C10 witness: a saturated limiter (one admission at instant `0`,
`R = 1`, `W = 1`), no semaphore queueing, work of duration `2`: the
recorded elapsed is `3 = 0 + 1 + 2`, including the one-second rate-gating
delay. -/
theorem C10_elapsed_includes_queueing_witness :
    ∃ rateDelay, 0 ≤ rateDelay ∧ (3 : ℚ) = 0 + rateDelay + 2 :=
  C10_elapsed_includes_queueing ⟨1, 1, [0]⟩ 0 0 2 ⟨1, 1, [0, 0]⟩ 3
    (by norm_num [BrowserBot.worker, BrowserBot.run, RateLimiter.wait,
      pruneRequests, List.dropWhile])
